import Mathlib

/-!
Verification of the Space Invaders engine core (`src/core/game-engine.js` and
the entity classes under `src/entities/`): object pool, spatial grid, collision
overlap predicate, power-up timing, player clamping and bullet trails.

JS objects handed out by a pool are modelled by natural-number identities; the
`createFn` callback is modelled as a fresh-identity supplier (`nextId`).
Coordinates are modelled as integers for the grid (`Math.floor` becomes `Int.fdiv`)
and as rationals where the source does fractional arithmetic.
-/

namespace SpaceInvader

/-! ## ObjectPool (src/core/game-engine.js, lines 59-141)

`pool` is the free stack (`Array.prototype.push` appends at the end,
`pop` removes from the end), `active` the active set, `totalCreated` the
lifetime allocation counter from `this.stats`. -/

structure ObjectPool where
  pool : List Nat
  active : Finset Nat
  totalCreated : Nat
  nextId : Nat
deriving DecidableEq

/-- Constructor: pre-populates the free stack with `initialSize` fresh objects;
`stats.totalCreated = initialSize`, no object active. -/
def ObjectPool.init (initialSize : Nat) : ObjectPool :=
  { pool := List.range initialSize
    active := ∅
    totalCreated := initialSize
    nextId := initialSize }

/-- `get()`: pops the free stack when non-empty (a pool hit), otherwise creates a
fresh object and increments `stats.totalCreated`; either way the returned object
is added to the active set. -/
def ObjectPool.get (p : ObjectPool) : Nat × ObjectPool :=
  if h : p.pool ≠ [] then
    let obj := p.pool.getLast h
    (obj, { p with pool := p.pool.dropLast, active := insert obj p.active })
  else
    (p.nextId,
     { p with
        active := insert p.nextId p.active
        totalCreated := p.totalCreated + 1
        nextId := p.nextId + 1 })

/-- `release(obj)`: guarded by `this.active.has(obj)`; when active, removes the
object from the active set and pushes it back on the free stack, else no-op. -/
def ObjectPool.release (p : ObjectPool) (obj : Nat) : ObjectPool :=
  if obj ∈ p.active then
    { p with active := p.active.erase obj, pool := p.pool ++ [obj] }
  else p

/-- One step of the pool's external interface: an acquire or a release call. -/
inductive PoolOp where
  | get : PoolOp
  | release : Nat → PoolOp
deriving DecidableEq

def ObjectPool.applyOp (p : ObjectPool) : PoolOp → ObjectPool
  | .get => (ObjectPool.get p).2
  | .release h => ObjectPool.release p h

def ObjectPool.applyOps (p : ObjectPool) (ops : List PoolOp) : ObjectPool :=
  ops.foldl ObjectPool.applyOp p

/-- Pool well-formedness: the free stack has no duplicates, is disjoint from the
active set, free + active account for every allocation, and all identities were
issued by `createFn`. -/
def ObjectPool.WF (p : ObjectPool) : Prop :=
  p.pool.Nodup ∧
  (∀ i ∈ p.pool, i ∉ p.active) ∧
  p.pool.length + p.active.card = p.totalCreated ∧
  (∀ i ∈ p.pool, i < p.nextId) ∧
  (∀ i ∈ p.active, i < p.nextId)

theorem ObjectPool.wf_init (n : Nat) : (ObjectPool.init n).WF := by
  refine ⟨?_, ?_, ?_, ?_, ?_⟩ <;>
    simp [ObjectPool.init, ObjectPool.WF, List.mem_range, List.nodup_range]

theorem ObjectPool.wf_get {p : ObjectPool} (hp : p.WF) : (ObjectPool.get p).2.WF := by
  obtain ⟨hnd, hdisj, hcard, hpb, hab⟩ := hp
  unfold ObjectPool.get
  by_cases h : p.pool ≠ []
  · rw [dif_pos h]
    have hmem : p.pool.getLast h ∈ p.pool := List.getLast_mem h
    have hsplit : p.pool.dropLast ++ [p.pool.getLast h] = p.pool :=
      List.dropLast_append_getLast h
    have hndd : p.pool.dropLast.Nodup := hnd.sublist (List.dropLast_sublist p.pool)
    have hlast_notmem : p.pool.getLast h ∉ p.pool.dropLast := by
      intro hm
      have hnd2 : (p.pool.dropLast ++ [p.pool.getLast h]).Nodup := by
        rw [hsplit]; exact hnd
      rw [List.nodup_append] at hnd2
      exact hnd2.2.2 hm (List.mem_singleton_self _)
    have hnotact : p.pool.getLast h ∉ p.active := hdisj _ hmem
    refine ⟨hndd, ?_, ?_, ?_, ?_⟩
    · intro i hi
      have hip : i ∈ p.pool := List.dropLast_subset _ hi
      simp only [Finset.mem_insert, not_or]
      exact ⟨fun he => hlast_notmem (he ▸ hi), hdisj i hip⟩
    · have h1 : p.pool.dropLast.length = p.pool.length - 1 := List.length_dropLast _
      have h2 : (insert (p.pool.getLast h) p.active).card = p.active.card + 1 :=
        Finset.card_insert_of_not_mem hnotact
      have h3 : 0 < p.pool.length := List.length_pos.mpr h
      simp only [h1, h2]
      omega
    · exact fun i hi => hpb i (List.dropLast_subset _ hi)
    · intro i hi
      rcases Finset.mem_insert.mp hi with rfl | ha
      · exact hpb _ hmem
      · exact hab i ha
  · rw [dif_neg h]
    dsimp only
    have hnotact : p.nextId ∉ p.active := fun hm => lt_irrefl _ (hab _ hm)
    refine ⟨hnd, ?_, ?_, ?_, ?_⟩
    · intro i hi
      simp only [Finset.mem_insert, not_or]
      exact ⟨fun he => lt_irrefl _ (he ▸ hpb i hi), hdisj i hi⟩
    · show p.pool.length + (insert p.nextId p.active).card = p.totalCreated + 1
      rw [Finset.card_insert_of_not_mem hnotact]
      omega
    · exact fun i hi => Nat.lt_succ_of_lt (hpb i hi)
    · intro i hi
      rcases Finset.mem_insert.mp hi with rfl | ha
      · exact Nat.lt_succ_self _
      · exact Nat.lt_succ_of_lt (hab i ha)

theorem ObjectPool.wf_release {p : ObjectPool} (hp : p.WF) (obj : Nat) :
    (ObjectPool.release p obj).WF := by
  obtain ⟨hnd, hdisj, hcard, hpb, hab⟩ := hp
  unfold ObjectPool.release
  by_cases h : obj ∈ p.active
  · rw [if_pos h]
    have hobj_notpool : obj ∉ p.pool := fun hm => hdisj obj hm h
    refine ⟨?_, ?_, ?_, ?_, ?_⟩
    · simp [List.nodup_append, hnd, hobj_notpool]
    · intro i hi
      rcases List.mem_append.mp hi with hip | hie
      · intro hia
        exact hdisj i hip (Finset.mem_of_mem_erase hia)
      · simp only [List.mem_singleton] at hie
        subst hie
        exact Finset.not_mem_erase i p.active
    · have h1 : 0 < p.active.card := Finset.card_pos.mpr ⟨obj, h⟩
      have h2 : (p.active.erase obj).card = p.active.card - 1 :=
        Finset.card_erase_of_mem h
      simp only [List.length_append, List.length_singleton, h2]
      omega
    · intro i hi
      rcases List.mem_append.mp hi with hip | hie
      · exact hpb i hip
      · simp only [List.mem_singleton] at hie
        exact hie ▸ hab obj h
    · exact fun i hi => hab i (Finset.mem_of_mem_erase hi)
  · rw [if_neg h]
    exact ⟨hnd, hdisj, hcard, hpb, hab⟩

theorem ObjectPool.wf_applyOps {p : ObjectPool} (hp : p.WF) (ops : List PoolOp) :
    (p.applyOps ops).WF := by
  induction ops generalizing p with
  | nil => exact hp
  | cons op rest ih =>
    cases op with
    | get => exact ih (ObjectPool.wf_get hp)
    | release h => exact ih (ObjectPool.wf_release hp h)

/-- C1: starting from a freshly constructed pool, after any finite sequence of
`get`/`release` calls, `|active| + |free| = stats.totalCreated`, no slot is both
free and active, and the identities in free ∪ active number exactly
`totalCreated` (every slot is in exactly one of the two sets). -/
theorem pool_partition_invariant (initialSize : Nat) (ops : List PoolOp) :
    ((ObjectPool.init initialSize).applyOps ops).pool.length +
      ((ObjectPool.init initialSize).applyOps ops).active.card =
      ((ObjectPool.init initialSize).applyOps ops).totalCreated ∧
    (∀ i, ¬(i ∈ ((ObjectPool.init initialSize).applyOps ops).pool ∧
      i ∈ ((ObjectPool.init initialSize).applyOps ops).active)) ∧
    (((ObjectPool.init initialSize).applyOps ops).pool.toFinset ∪
      ((ObjectPool.init initialSize).applyOps ops).active).card =
      ((ObjectPool.init initialSize).applyOps ops).totalCreated := by
  obtain ⟨hnd, hdisj, hcard, -, -⟩ :=
    ObjectPool.wf_applyOps (ObjectPool.wf_init initialSize) ops
  refine ⟨hcard, fun i ⟨hip, hia⟩ => hdisj i hip hia, ?_⟩
  have hdisjf : Disjoint
      (((ObjectPool.init initialSize).applyOps ops).pool.toFinset)
      (((ObjectPool.init initialSize).applyOps ops).active) := by
    rw [Finset.disjoint_left]
    intro a ha
    exact hdisj a (List.mem_toFinset.mp ha)
  rw [Finset.card_union_of_disjoint hdisjf, List.card_toFinset, hnd.dedup]
  exact hcard

/-- C2: releasing a handle that is not currently active leaves the pool state
unchanged, and a second release of an already-released handle is always a
no-op. -/
theorem release_inactive_noop (p : ObjectPool) (obj : Nat) :
    (obj ∉ p.active → p.release obj = p) ∧
    (p.release obj).release obj = p.release obj := by
  constructor
  · intro h
    simp [ObjectPool.release, h]
  · by_cases h : obj ∈ p.active
    · simp [ObjectPool.release, h]
    · simp [ObjectPool.release, h]

/-- Witness for C2 at a concrete pool: handle 5 is not active in a fresh pool of
size 2, so releasing it changes nothing, and double release is a no-op. -/
theorem release_inactive_noop_witness :
    ((ObjectPool.init 2).release 5 = ObjectPool.init 2) ∧
    (((ObjectPool.init 2).release 5).release 5 = (ObjectPool.init 2).release 5) :=
  ⟨(release_inactive_noop (ObjectPool.init 2) 5).1 (by decide),
   (release_inactive_noop (ObjectPool.init 2) 5).2⟩

/-- C8: `get()` always yields a slot that becomes active; when the free stack is
non-empty the slot comes from the free stack and the lifetime counter is
unchanged, and when it is empty a fresh slot is allocated and
`stats.totalCreated` is incremented. -/
theorem get_always_succeeds (p : ObjectPool) :
    (ObjectPool.get p).1 ∈ (ObjectPool.get p).2.active ∧
    (p.pool ≠ [] →
      (ObjectPool.get p).1 ∈ p.pool ∧
      (ObjectPool.get p).2.totalCreated = p.totalCreated) ∧
    (p.pool = [] →
      (ObjectPool.get p).2.totalCreated = p.totalCreated + 1) := by
  unfold ObjectPool.get
  by_cases h : p.pool ≠ []
  · rw [dif_pos h]
    exact ⟨Finset.mem_insert_self _ _,
      fun _ => ⟨List.getLast_mem h, rfl⟩,
      fun he => absurd he h⟩
  · rw [dif_neg h]
    exact ⟨Finset.mem_insert_self _ _,
      fun hne => absurd (not_not.mp h) hne,
      fun _ => rfl⟩

/-- Witness for C8 on concrete pools: a size-1 pool serves its free slot with the
counter unchanged, and an empty pool allocates and bumps the counter. -/
theorem get_always_succeeds_witness :
    ((ObjectPool.get (ObjectPool.init 1)).1 ∈ (ObjectPool.init 1).pool ∧
      (ObjectPool.get (ObjectPool.init 1)).2.totalCreated =
        (ObjectPool.init 1).totalCreated) ∧
    (ObjectPool.get (ObjectPool.init 0)).2.totalCreated =
      (ObjectPool.init 0).totalCreated + 1 :=
  ⟨(get_always_succeeds (ObjectPool.init 1)).2.1 (by decide),
   (get_always_succeeds (ObjectPool.init 0)).2.2 (by decide)⟩

/-! ## SpatialGrid (src/core/game-engine.js, lines 143-190)

Entities carry an identity and an integer position; `Math.floor(x / cellSize)`
on integers is `Int.fdiv`, and `Math.ceil(width / cellSize)` is `ceilDiv`. -/

structure Entity where
  id : Nat
  x : Int
  y : Int
deriving DecidableEq

structure SpatialGrid where
  cellSize : Int
  cols : Int
  rows : Int
  cells : List (List Entity)
deriving DecidableEq

/-- `Math.ceil(a / b)` on integers: `-⌊-a / b⌋` (exact ceiling for `b > 0`). -/
def ceilDiv (a b : Int) : Int := -((-a).fdiv b)

/-- Constructor: `cols = Math.ceil(width/cellSize)`, `rows = Math.ceil(height/cellSize)`,
`grid = Array(cols * rows)` of empty buckets. -/
def SpatialGrid.make (width height cellSize : Int) : SpatialGrid :=
  { cellSize := cellSize
    cols := ceilDiv width cellSize
    rows := ceilDiv height cellSize
    cells := List.replicate (ceilDiv width cellSize * ceilDiv height cellSize).toNat [] }

/-- `getCellIndex(x, y) = Math.floor(y/cellSize) * cols + Math.floor(x/cellSize)`. -/
def SpatialGrid.getCellIndex (g : SpatialGrid) (x y : Int) : Int :=
  y.fdiv g.cellSize * g.cols + x.fdiv g.cellSize

/-- `insert(entity)`: appends the entity to the bucket at its flattened cell
index; the only guard is `0 <= index < grid.length`. -/
def SpatialGrid.insert (g : SpatialGrid) (e : Entity) : SpatialGrid :=
  if 0 ≤ g.getCellIndex e.x e.y ∧ g.getCellIndex e.x e.y < (g.cells.length : Int) then
    { g with
        cells := g.cells.set (g.getCellIndex e.x e.y).toNat
          (g.cells.getD (g.getCellIndex e.x e.y).toNat [] ++ [e]) }
  else g

/-- `getNearbyEntities(x, y)`: concatenates, in loop order `dy` then `dx` over
`-1..1`, the buckets whose flattened index `(row+dy)*cols + (col+dx)` lies in
`[0, grid.length)`. -/
def SpatialGrid.getNearbyEntities (g : SpatialGrid) (x y : Int) : List Entity :=
  ([-1, 0, 1] : List Int).flatMap fun dy =>
    ([-1, 0, 1] : List Int).flatMap fun dx =>
      let index := (y.fdiv g.cellSize + dy) * g.cols + (x.fdiv g.cellSize + dx)
      if 0 ≤ index ∧ index < (g.cells.length : Int) then g.cells.getD index.toNat []
      else []

/-- `clear()`: every bucket becomes empty. -/
def SpatialGrid.clear (g : SpatialGrid) : SpatialGrid :=
  { g with cells := g.cells.map fun _ => [] }

/-- C3 counterexample: in an 800×600 grid with cell size 100 (8 columns,
6 rows, 48 buckets), the entity at (-50, 150) lies outside the extent
(`x < 0`), yet its flattened index is `1*8 + (-1) = 7`, which passes the
code's only guard, so the entity IS inserted (into the wrapped bucket 7). -/
theorem insert_out_of_extent_changes_grid :
    ((-50 : Int) < 0) ∧
    ((SpatialGrid.make 800 600 100).insert ⟨0, -50, 150⟩).cells ≠
      (SpatialGrid.make 800 600 100).cells := by decide

/-- C3 amended: `insert` leaves every bucket unchanged exactly when the
flattened index `floor(y/cs)*cols + floor(x/cs)` falls outside
`[0, cols*rows)`; an out-of-extent entity whose flattened index still lands in
that range (negative x, or x beyond the width on a non-final row) is appended
to the corresponding wrapped bucket. -/
theorem insert_guarded_by_flat_index (g : SpatialGrid) (e : Entity) :
    (g.getCellIndex e.x e.y < 0 ∨ (g.cells.length : Int) ≤ g.getCellIndex e.x e.y →
      g.insert e = g) ∧
    (0 ≤ g.getCellIndex e.x e.y → g.getCellIndex e.x e.y < (g.cells.length : Int) →
      (g.insert e).cells.getD (g.getCellIndex e.x e.y).toNat [] =
        g.cells.getD (g.getCellIndex e.x e.y).toNat [] ++ [e]) := by
  constructor
  · intro h
    unfold SpatialGrid.insert
    rw [if_neg]
    rintro ⟨h1, h2⟩
    omega
  · intro h1 h2
    unfold SpatialGrid.insert
    rw [if_pos ⟨h1, h2⟩]
    have hn : (g.getCellIndex e.x e.y).toNat < g.cells.length := by omega
    simp [List.getD_eq_getElem?_getD, List.getElem?_set_self hn]

/-- Witness for C3's amended theorem: entity (0, -10) has flattened index
`-1*8 + 0 = -8 < 0` and is dropped; entity (150, 50) has index 1 and is
appended to bucket 1. -/
theorem insert_guarded_by_flat_index_witness :
    ((SpatialGrid.make 800 600 100).insert ⟨0, 0, -10⟩ = SpatialGrid.make 800 600 100) ∧
    (((SpatialGrid.make 800 600 100).insert ⟨1, 150, 50⟩).cells.getD
        ((SpatialGrid.make 800 600 100).getCellIndex 150 50).toNat [] =
      (SpatialGrid.make 800 600 100).cells.getD
        ((SpatialGrid.make 800 600 100).getCellIndex 150 50).toNat [] ++ [⟨1, 150, 50⟩]) :=
  ⟨(insert_guarded_by_flat_index (SpatialGrid.make 800 600 100) ⟨0, 0, -10⟩).1 (by decide),
   (insert_guarded_by_flat_index (SpatialGrid.make 800 600 100) ⟨1, 150, 50⟩).2
     (by decide) (by decide)⟩

theorem fdiv_le_fdiv_of_le {a b cs : Int} (hcs : 0 < cs) (h : a ≤ b) :
    a.fdiv cs ≤ b.fdiv cs := by
  rw [Int.fdiv_eq_ediv _ hcs.le, Int.fdiv_eq_ediv _ hcs.le]
  exact Int.ediv_le_ediv hcs h

theorem fdiv_add_divisor {a cs : Int} (hcs : 0 < cs) :
    (a + cs).fdiv cs = a.fdiv cs + 1 := by
  rw [Int.fdiv_eq_ediv _ hcs.le, Int.fdiv_eq_ediv _ hcs.le]
  have h := Int.add_mul_ediv_right a 1 (ne_of_gt hcs)
  simpa using h

theorem fdiv_sub_divisor {a cs : Int} (hcs : 0 < cs) :
    (a - cs).fdiv cs = a.fdiv cs - 1 := by
  rw [Int.fdiv_eq_ediv _ hcs.le, Int.fdiv_eq_ediv _ hcs.le]
  have h := Int.add_mul_ediv_right a (-1) (ne_of_gt hcs)
  have he : a + -1 * cs = a - cs := by ring
  rw [he] at h
  omega

/-- A point within one cell size of another lands in an adjacent (or the same)
cell along that axis. -/
theorem fdiv_within_one {q p cs : Int} (hcs : 0 < cs) (h : |q - p| ≤ cs) :
    p.fdiv cs - 1 ≤ q.fdiv cs ∧ q.fdiv cs ≤ p.fdiv cs + 1 := by
  rw [abs_le] at h
  constructor
  · have h1 : p - cs ≤ q := by linarith [h.1]
    have h2 := fdiv_le_fdiv_of_le hcs h1
    rw [fdiv_sub_divisor hcs] at h2
    exact h2
  · have h1 : q ≤ p + cs := by linarith [h.2]
    have h2 := fdiv_le_fdiv_of_le hcs h1
    rw [fdiv_add_divisor hcs] at h2
    exact h2

/-- A coordinate below `w` lands in a column strictly below `ceil(w / cs)`. -/
theorem fdiv_lt_ceilDiv {a w cs : Int} (hcs : 0 < cs) (h : a < w) :
    a.fdiv cs < ceilDiv w cs := by
  rw [ceilDiv, Int.fdiv_eq_ediv _ hcs.le, Int.fdiv_eq_ediv _ hcs.le]
  have h1 : 0 ≤ a % cs := Int.emod_nonneg a (ne_of_gt hcs)
  have h2 : a % cs = a - cs * (a / cs) := Int.emod_def a cs
  have hle : cs * (a / cs) ≤ a := by linarith
  have hmul : -w < -(a / cs) * cs := by
    have hc : -(a / cs) * cs = -(cs * (a / cs)) := by ring
    linarith
  have hlt : (-w) / cs < -(a / cs) := (Int.ediv_lt_iff_lt_mul hcs).mpr hmul
  linarith

/-- C4: an entity inserted at a position inside the configured extent is
returned by `getNearbyEntities` queried at any point within one cell size of
the entity's position (in particular at the position itself). -/
theorem query_returns_inserted (g : SpatialGrid) (e : Entity) (w h qx qy : Int)
    (hcs : 0 < g.cellSize)
    (hcols : g.cols = ceilDiv w g.cellSize)
    (hrows : g.rows = ceilDiv h g.cellSize)
    (hlen : (g.cells.length : Int) = g.cols * g.rows)
    (hx0 : 0 ≤ e.x) (hxw : e.x < w)
    (hy0 : 0 ≤ e.y) (hyh : e.y < h)
    (hqx : |qx - e.x| ≤ g.cellSize) (hqy : |qy - e.y| ≤ g.cellSize) :
    e ∈ (g.insert e).getNearbyEntities qx qy := by
  have hcol0 : 0 ≤ e.x.fdiv g.cellSize := Int.fdiv_nonneg hx0 hcs.le
  have hcolw : e.x.fdiv g.cellSize < g.cols := hcols ▸ fdiv_lt_ceilDiv hcs hxw
  have hrow0 : 0 ≤ e.y.fdiv g.cellSize := Int.fdiv_nonneg hy0 hcs.le
  have hrowh : e.y.fdiv g.cellSize < g.rows := hrows ▸ fdiv_lt_ceilDiv hcs hyh
  have hcolspos : 0 < g.cols := lt_of_le_of_lt hcol0 hcolw
  have hi0 : 0 ≤ g.getCellIndex e.x e.y :=
    add_nonneg (mul_nonneg hrow0 hcolspos.le) hcol0
  have hilen : g.getCellIndex e.x e.y < (g.cells.length : Int) := by
    rw [hlen]
    have h1 : e.y.fdiv g.cellSize ≤ g.rows - 1 := by omega
    have h2 : e.y.fdiv g.cellSize * g.cols ≤ (g.rows - 1) * g.cols :=
      mul_le_mul_of_nonneg_right h1 hcolspos.le
    have h3 : (g.rows - 1) * g.cols + g.cols = g.cols * g.rows := by ring
    unfold SpatialGrid.getCellIndex
    omega
  have hins : (g.insert e).cells =
      g.cells.set (g.getCellIndex e.x e.y).toNat
        (g.cells.getD (g.getCellIndex e.x e.y).toNat [] ++ [e]) := by
    unfold SpatialGrid.insert
    rw [if_pos ⟨hi0, hilen⟩]
  have hqcol := fdiv_within_one hcs hqx
  have hqrow := fdiv_within_one hcs hqy
  unfold SpatialGrid.getNearbyEntities
  rw [List.mem_flatMap]
  refine ⟨e.y.fdiv g.cellSize - qy.fdiv g.cellSize, ?_, ?_⟩
  · have : e.y.fdiv g.cellSize - qy.fdiv g.cellSize = -1 ∨
        e.y.fdiv g.cellSize - qy.fdiv g.cellSize = 0 ∨
        e.y.fdiv g.cellSize - qy.fdiv g.cellSize = 1 := by omega
    rcases this with h | h | h <;> rw [h] <;> simp
  · rw [List.mem_flatMap]
    refine ⟨e.x.fdiv g.cellSize - qx.fdiv g.cellSize, ?_, ?_⟩
    · have : e.x.fdiv g.cellSize - qx.fdiv g.cellSize = -1 ∨
          e.x.fdiv g.cellSize - qx.fdiv g.cellSize = 0 ∨
          e.x.fdiv g.cellSize - qx.fdiv g.cellSize = 1 := by omega
      rcases this with h | h | h <;> rw [h] <;> simp
    · have hcells : (g.insert e).cellSize = g.cellSize := by
        unfold SpatialGrid.insert
        by_cases hc : 0 ≤ g.getCellIndex e.x e.y ∧
            g.getCellIndex e.x e.y < (g.cells.length : Int)
        · rw [if_pos hc]
        · rw [if_neg hc]
      have hgcols : (g.insert e).cols = g.cols := by
        unfold SpatialGrid.insert
        by_cases hc : 0 ≤ g.getCellIndex e.x e.y ∧
            g.getCellIndex e.x e.y < (g.cells.length : Int)
        · rw [if_pos hc]
        · rw [if_neg hc]
      rw [hcells, hgcols, hins]
      have hidx : (qy.fdiv g.cellSize + (e.y.fdiv g.cellSize - qy.fdiv g.cellSize)) * g.cols +
          (qx.fdiv g.cellSize + (e.x.fdiv g.cellSize - qx.fdiv g.cellSize)) =
          g.getCellIndex e.x e.y := by
        unfold SpatialGrid.getCellIndex
        ring
      rw [hidx]
      have hlset : ((g.cells.set (g.getCellIndex e.x e.y).toNat
          (g.cells.getD (g.getCellIndex e.x e.y).toNat [] ++ [e])).length : Int) =
          (g.cells.length : Int) := by
        rw [List.length_set]
      rw [hlset, if_pos ⟨hi0, hilen⟩]
      have hn : (g.getCellIndex e.x e.y).toNat < g.cells.length := by omega
      simp [List.getD_eq_getElem?_getD, List.getElem?_set_self hn]

/-- Witness for C4 on a concrete grid: the entity at (150, 250) in an 800×600
grid with cell size 100 is returned when querying at (180, 330), a point
within one cell size of it. -/
theorem query_returns_inserted_witness :
    (⟨7, 150, 250⟩ : Entity) ∈
      ((SpatialGrid.make 800 600 100).insert ⟨7, 150, 250⟩).getNearbyEntities 180 330 :=
  query_returns_inserted (SpatialGrid.make 800 600 100) ⟨7, 150, 250⟩ 800 600 180 330
    (by decide) (by decide) (by decide) (by decide) (by decide) (by decide)
    (by decide) (by decide) (by decide) (by decide)

/-! ## Axis-aligned box overlap (collision check, spec §4.4 step 2)

Box coordinates are rationals since entity positions undergo fractional
arithmetic (mouse smoothing, spread-shot velocities). -/

structure Box where
  x : ℚ
  y : ℚ
  w : ℚ
  h : ℚ
deriving DecidableEq

/-- The collision predicate
`a.x < b.x + b.w && a.x + a.w > b.x && a.y < b.y + b.h && a.y + a.h > b.y`. -/
def overlap (a b : Box) : Bool :=
  decide (a.x < b.x + b.w) && decide (a.x + a.w > b.x) &&
    decide (a.y < b.y + b.h) && decide (a.y + a.h > b.y)

/-- C7: the box-overlap predicate is symmetric for every pair of boxes,
including zero-area boxes and fully-contained pairs. -/
theorem overlap_symm (a b : Box) : overlap a b = overlap b a := by
  rw [Bool.eq_iff_iff]
  simp only [overlap, Bool.and_eq_true, decide_eq_true_eq, gt_iff_lt]
  tauto

/-! ## Player (src/entities/player.js)

Fields touched by `update`; `0.15` is the mouse smoothing factor and `0.2` the
thruster animation increment. -/

structure Keys where
  arrowLeft : Bool
  arrowRight : Bool
deriving DecidableEq

structure Player where
  x : ℚ
  y : ℚ
  width : ℚ
  speed : ℚ
  thrusterAnimation : ℚ
deriving DecidableEq

/-- `Player.update(keys, canvasWidth, mouseX, useMouseControl)`: smoothed mouse
motion when a mouse position is supplied and mouse control is on, else
keyboard motion; ends with `x = Math.max(0, Math.min(canvasWidth - width, x))`. -/
def Player.update (p : Player) (keys : Keys) (canvasWidth : ℚ)
    (mouseX : Option ℚ) (useMouseControl : Bool) : Player :=
  let p1 := { p with thrusterAnimation := p.thrusterAnimation + 1/5 }
  let p2 :=
    match mouseX, useMouseControl with
    | some mx, true =>
      let targetX := mx - p1.width / 2
      let diff := targetX - p1.x
      { p1 with x := p1.x + diff * (3/20) }
    | _, _ =>
      let p3 :=
        if keys.arrowLeft ∧ p1.x > 0 then { p1 with x := p1.x - p1.speed } else p1
      if keys.arrowRight ∧ p3.x < canvasWidth - p3.width then
        { p3 with x := p3.x + p3.speed }
      else p3
  { p2 with x := max 0 (min (canvasWidth - p2.width) p2.x) }

/-- C9: after `Player.update`, whatever the keys, mouse position and control
mode, the player's x coordinate satisfies `0 ≤ x ≤ canvasWidth - width`
(for a canvas at least as wide as the player). -/
theorem player_update_in_bounds (p : Player) (keys : Keys) (canvasWidth : ℚ)
    (mouseX : Option ℚ) (useMouseControl : Bool)
    (hw : p.width ≤ canvasWidth) :
    0 ≤ (p.update keys canvasWidth mouseX useMouseControl).x ∧
    (p.update keys canvasWidth mouseX useMouseControl).x ≤ canvasWidth - p.width := by
  have hc : (0 : ℚ) ≤ canvasWidth - p.width := by linarith
  unfold Player.update
  rcases mouseX with - | mx <;> cases useMouseControl <;>
    dsimp only <;>
    (try split_ifs) <;>
    exact ⟨le_max_left _ _, max_le hc (min_le_left _ _)⟩

/-- Witness for C9: a concrete player on an 800-wide canvas driven one step to
the left stays inside `[0, 760]`. -/
theorem player_update_in_bounds_witness :
    0 ≤ ((⟨10, 550, 40, 5, 0⟩ : Player).update ⟨true, false⟩ 800 none false).x ∧
    ((⟨10, 550, 40, 5, 0⟩ : Player).update ⟨true, false⟩ 800 none false).x ≤
      800 - (⟨10, 550, 40, 5, 0⟩ : Player).width :=
  player_update_in_bounds ⟨10, 550, 40, 5, 0⟩ ⟨true, false⟩ 800 none false (by norm_num)

/-! ## Bullet (src/entities/bullet.js)

Fields touched by `reset`/`update`. The random spawning of trail particles in
`update` mutates only the external particle pool, never the bullet, and is
omitted; the `game` back-reference is likewise external. -/

structure Bullet where
  x : ℚ
  y : ℚ
  speed : ℚ
  speedX : ℚ
  width : ℚ
  height : ℚ
  color : String
  splitShot : Bool
  trail : List (ℚ × ℚ)
deriving DecidableEq

/-- `Bullet.reset(x, y, speed, color)`: fresh kinematic state, zero horizontal
velocity, cleared split flag and empty trail. -/
def Bullet.reset (b : Bullet) (x y speed : ℚ) (color : String) : Bullet :=
  { b with
      x := x, y := y, speed := speed, speedX := 0
      color := color, splitShot := false, trail := [] }

/-- `Bullet.update()`: records the current position at the head of the trail,
pops the oldest entry when the trail exceeds 5, then moves by
`(speedX, speed)`. -/
def Bullet.update (b : Bullet) : Bullet :=
  let t1 := (b.x, b.y) :: b.trail
  let t2 := if t1.length > 5 then t1.dropLast else t1
  { b with trail := t2, y := b.y + b.speed, x := b.x + b.speedX }

def Bullet.iterate (b : Bullet) : Nat → Bullet
  | 0 => b
  | n + 1 => (b.iterate n).update

theorem trail_push_take (a : ℚ × ℚ) (l : List (ℚ × ℚ)) :
    (if (a :: l.take 5).length > 5 then (a :: l.take 5).dropLast else a :: l.take 5) =
      (a :: l).take 5 := by
  rcases l with - | ⟨a1, - | ⟨a2, - | ⟨a3, - | ⟨a4, - | ⟨a5, rest⟩⟩⟩⟩⟩ <;> rfl

theorem bullet_trail_aux (c : Bullet) (hc : c.trail = []) (n : Nat) :
    (c.iterate n).trail =
      ((List.range n).reverse.map fun k => ((c.iterate k).x, (c.iterate k).y)).take 5 := by
  induction n with
  | zero => simpa using hc
  | succ n ih =>
    show ((c.iterate n).update).trail = _
    unfold Bullet.update
    dsimp only
    rw [ih, List.range_succ, List.reverse_append, List.map_append]
    simp only [List.reverse_singleton, List.map_cons, List.map_nil,
      List.singleton_append]
    exact trail_push_take _ _

/-- C10: after any number of updates following a reset, the trail holds at most
5 entries, and the entries are exactly the bullet's most recent previous
positions, most recent first (entry `i` is the position after `n-1-i`
updates). -/
theorem bullet_trail_bounded_recent (b : Bullet) (x y speed : ℚ) (color : String)
    (n : Nat) :
    ((b.reset x y speed color).iterate n).trail.length ≤ 5 ∧
    ((b.reset x y speed color).iterate n).trail =
      ((List.range n).reverse.map fun k =>
        (((b.reset x y speed color).iterate k).x,
         ((b.reset x y speed color).iterate k).y)).take 5 := by
  have h := bullet_trail_aux (b.reset x y speed color) rfl n
  exact ⟨by rw [h]; exact le_trans (List.length_take_le _ _) (le_refl _), h⟩

/-! ## Power-up state machine (spec §4.3; durations in GAME_CONFIG.powerUps) -/

/-- Modelled from the spec: the power-up activation/expiration records live in
`src/main.js`, which is missing from the source tree (only `GAME_CONFIG`'s
duration table is present). One record per timed kind: `{active, expiresAt}`;
time is in integer milliseconds. -/
structure PowerUpRecord where
  active : Bool
  expiresAt : Int
deriving DecidableEq

/-- Modelled from the spec: collection of a timed kind at time `now` with the
kind's configured duration sets `active = true` and `expiresAt = now + dur`. -/
def activatePowerUp (now dur : Int) : PowerUpRecord :=
  { active := true, expiresAt := now + dur }

/-- Modelled from the spec: the per-frame sweep deactivates a non-permanent
active record exactly when `now > expiresAt`. -/
def sweepPowerUp (now : Int) (s : PowerUpRecord) : PowerUpRecord :=
  if s.active ∧ now > s.expiresAt then { s with active := false } else s

/-- C5 counterexample: a power-up activated at T = 0 with duration D = 5 is
still reported active by the sweep at T' = 5 = T + D, because the sweep's
guard is the strict `now > expiresAt`; the claim demands inactive for every
T' ≥ T + D. -/
theorem power_up_active_at_expiry :
    ((0 : Int) + 5 ≤ 5) ∧ (sweepPowerUp 5 (activatePowerUp 0 5)).active = true := by
  decide

/-- C5 amended: a non-permanent power-up activated at time T with duration D is
reported active by the sweep at every T' ≤ T + D, and inactive at every
T' > T + D (the sweep deactivates exactly the active records whose expiry time
has strictly passed). -/
theorem power_up_active_window (T D Tq : Int) :
    (Tq ≤ T + D → (sweepPowerUp Tq (activatePowerUp T D)).active = true) ∧
    (T + D < Tq → (sweepPowerUp Tq (activatePowerUp T D)).active = false) := by
  constructor
  · intro h
    unfold sweepPowerUp activatePowerUp
    rw [if_neg]
    rintro ⟨-, h2⟩
    dsimp only at h2
    omega
  · intro h
    unfold sweepPowerUp activatePowerUp
    rw [if_pos ⟨rfl, by dsimp only; omega⟩]

/-- Witness for C5's amended theorem: activation at 0 with duration 5 is active
under a sweep at 3 and inactive under a sweep at 6. -/
theorem power_up_active_window_witness :
    (sweepPowerUp 3 (activatePowerUp 0 5)).active = true ∧
    (sweepPowerUp 6 (activatePowerUp 0 5)).active = false :=
  ⟨(power_up_active_window 0 5 3).1 (by decide),
   (power_up_active_window 0 5 6).2 (by decide)⟩

/-! ## Collision resolution for one friendly projectile (spec §4.4) -/

/-- Modelled from the spec: the per-target state the collision resolver in
`src/main.js` (missing from the source tree) examines — a bounding box and the
remaining shield strength. -/
structure Target where
  id : Nat
  box : Box
  shield : Nat
deriving DecidableEq

/-- Modelled from the spec (§4.4 step 3): one friendly projectile's pass over
its candidate targets in query order. On overlap with a shielded target
(shield strength > 1) the target survives and a non-piercing projectile is
destroyed, stopping its iteration; on overlap otherwise the target is
destroyed, and a non-piercing projectile stops while a piercing one continues.
Returns the targets destroyed by this projectile this frame, in resolution
order. -/
def resolveProjectile (piercing : Bool) (proj : Box) : List Target → List Target
  | [] => []
  | t :: rest =>
    if overlap proj t.box then
      if t.shield > 1 then
        if piercing then resolveProjectile piercing proj rest else []
      else
        if piercing then t :: resolveProjectile piercing proj rest else [t]
    else resolveProjectile piercing proj rest

/-- C6: a non-piercing projectile destroys at most one target per frame, and
the outcome is decided by the first overlapping candidate in query order
(iteration stops there): that target if it is unshielded, none if it is
shielded. -/
theorem non_piercing_destroys_at_most_one (proj : Box) (ts : List Target) :
    (resolveProjectile false proj ts).length ≤ 1 ∧
    resolveProjectile false proj ts =
      (match ts.find? (fun t => overlap proj t.box) with
       | some t => if t.shield > 1 then [] else [t]
       | none => []) := by
  induction ts with
  | nil => simp [resolveProjectile]
  | cons t rest ih =>
    by_cases h : overlap proj t.box = true
    · have h' : (fun s => overlap proj s.box) t = true := h
      rw [@List.find?_cons_of_pos Target (fun s => overlap proj s.box) t rest h']
      unfold resolveProjectile
      rw [if_pos h]
      by_cases hs : t.shield > 1
      · simp [hs]
      · simp [hs]
    · have h' : ¬((fun s => overlap proj s.box) t = true) := h
      rw [@List.find?_cons_of_neg Target (fun s => overlap proj s.box) t rest h']
      unfold resolveProjectile
      rw [if_neg h]
      exact ih

end SpaceInvader
